import Mathlib

/-!
Verification development for the semantic-retrieval subsystem of the
`app-text-gen` application (files `semantic_search.py`, `rag.py`,
`kb_manager.py`).

Modelling conventions:
* Python `float` values are modelled as real numbers (`ℝ`); vectors as
  `List ℝ`.
* Python `str` is modelled as `String` (a sequence of characters); where
  character-level processing matters the model works on `String.data`.
* Fallible operations (code paths that can raise) return `Except Unit`.
* The external embedding provider (Azure API calls) is out of scope: its
  outcome is passed to the modelled functions as an argument
  (`Option` mirrors the Python functions returning `None` on failure).
* Reading and writing of the JSON files is out of scope; the persisted
  index is modelled by its in-memory value (the `entries` list).
-/

/-- One message of a conversation (a dict with `role` and `content`). -/
structure Message where
  role : String
  content : String

/-- One entry of the embedding index, as built by
`EmbeddingIndex.index_conversation` in `semantic_search.py`.  Entries are
dict-shaped in the source; KB-document entries additionally carry `type`,
`doc_title`, `collection` and `text` keys, modelled by `Option` fields
(`none` models an absent key, matching Python `.get`). -/
structure IndexEntry where
  pair_id : String
  conversation_id : String
  user_message : String
  assistant_message : String
  pair_index : ℕ
  model : String
  system_prompt : String
  timestamp : String
  embedding : List ℝ
  entryType : Option String := none
  doc_title : Option String := none
  collection : Option String := none
  text : Option String := none

/-- Dot product of two float vectors (componentwise product, summed;
extra components of the longer vector are ignored, which never happens
for equal-length vectors). -/
def vecDot (a b : List ℝ) : ℝ := (List.zipWith (fun x y => x * y) a b).sum

/-- Cosine similarity `dot(a,b) / (norm(a) * norm(b))` as computed by
`sklearn.metrics.pairwise.cosine_similarity` on two row vectors.  In Lean
division by zero yields `0`, which coincides with sklearn treating an
all-zero vector as having similarity `0`. -/
noncomputable def cosineSimilarity (a b : List ℝ) : ℝ :=
  vecDot a b / (Real.sqrt (vecDot a a) * Real.sqrt (vecDot b b))

/-- Cosine similarity as called inside `EmbeddingIndex.search`:
`sklearn` first checks that the two vectors have the same dimension and
raises `ValueError` otherwise, modelled by `Except.error`. -/
noncomputable def cosineSimilarityChecked (a b : List ℝ) : Except Unit ℝ :=
  if a.length = b.length then .ok (cosineSimilarity a b) else .error ()

/-- The scoring loop of `EmbeddingIndex.search` (lines 236-247 of
`semantic_search.py`): for each stored entry compute the cosine
similarity against the query vector (raising on dimension mismatch) and
keep a copy of the entry together with its score when the score clears
`similarity_threshold`. -/
noncomputable def searchLoop (query_vector : List ℝ) (similarity_threshold : ℝ) :
    List IndexEntry → Except Unit (List (IndexEntry × ℝ))
  | [] => .ok []
  | e :: rest =>
    match cosineSimilarityChecked query_vector e.embedding with
    | .error u => .error u
    | .ok s =>
      match searchLoop query_vector similarity_threshold rest with
      | .error u => .error u
      | .ok tail => .ok (if similarity_threshold ≤ s then (e, s) :: tail else tail)

/-- The comparison used by `results.sort(key=lambda x: x["similarity_score"],
reverse=True)`: Python sorts are stable, and with `reverse=True` the list
is stably ordered by descending score. -/
noncomputable def descBySim (a b : IndexEntry × ℝ) : Bool := decide (b.2 ≤ a.2)

/-- Model of `EmbeddingIndex.search` (`semantic_search.py` lines 209-252).
The query string is embedded by the external provider before the scan;
`query_embedding` is that provider outcome (`none` models `embed_text`
returning `None`).  Returns the scored entries stably sorted by
descending similarity, truncated to `top_k`. -/
noncomputable def EmbeddingIndex.search (entries : List IndexEntry)
    (query_embedding : Option (List ℝ)) (top_k : ℕ) (similarity_threshold : ℝ) :
    Except Unit (List (IndexEntry × ℝ)) :=
  match entries with
  | [] => .ok []
  | e :: rest =>
    match query_embedding with
    | none => .ok []
    | some q =>
      match searchLoop q similarity_threshold (e :: rest) with
      | .error u => .error u
      | .ok results => .ok ((results.mergeSort descBySim).take top_k)

/-- The per-entry insertion step of `EmbeddingIndex.index_conversation`
(lines 196-202): if an entry with the same `pair_id` already exists, the
first such entry is replaced in place; otherwise the new entry is
appended. -/
def upsertEntry (entries : List IndexEntry) (e : IndexEntry) : List IndexEntry :=
  match entries with
  | [] => [e]
  | x :: xs => if x.pair_id = e.pair_id then e :: xs else x :: upsertEntry xs e

/-- The `pair_id` assigned to the `i`-th message pair of a conversation:
the Python f-string `f"{conversation_id}_pair_{i}"`. -/
def mkPairId (conversation_id : String) (i : ℕ) : String :=
  conversation_id ++ "_pair_" ++ Nat.repr i

/-- Metadata record built for the `i`-th message pair (lines 165-174 of
`semantic_search.py`); the embedding is merged in afterwards. -/
def mkPairMetadata (conversation_id system_prompt model ts : String)
    (i : ℕ) (user_msg assistant_msg : Message) : IndexEntry :=
  { pair_id := mkPairId conversation_id i
    conversation_id := conversation_id
    user_message := user_msg.content
    assistant_message := assistant_msg.content
    pair_index := i
    model := model
    system_prompt := system_prompt
    timestamp := ts
    embedding := [] }

/-- Model of `EmbeddingIndex.index_conversation` (lines 136-207).  The
user and assistant messages are paired positionally; the external batch
embedding call is modelled by `embedBatchResult` (`none` models
`embed_batch` returning `None`, in which case the index is unchanged).
Each (metadata, embedding) pair is upserted by `pair_id`. -/
def EmbeddingIndex.index_conversation (index : List IndexEntry)
    (conversation_id : String) (messages : List Message)
    (system_prompt model ts : String)
    (embedBatchResult : Option (List (List ℝ))) : List IndexEntry :=
  let user_messages := messages.filter (fun m => m.role == "user")
  let assistant_messages := messages.filter (fun m => m.role == "assistant")
  let pair_metadata := (user_messages.zip assistant_messages).enum.map
    (fun p => mkPairMetadata conversation_id system_prompt model ts p.1 p.2.1 p.2.2)
  if pair_metadata.isEmpty then index
  else
    match embedBatchResult with
    | none => index
    | some embeddings =>
      ((pair_metadata.zip embeddings).map
        (fun p => { p.1 with embedding := p.2 })).foldl upsertEntry index

/-- Runtime state of `RAGEngine` (`rag.py` lines 12-21).  The bound
embedding index is modelled by its entry list (`none` = no index bound);
`max_context_tokens` is configuration that the retrieval and formatting
path never reads. -/
structure RAGEngine where
  embedding_index : Option (List IndexEntry)
  enabled : Bool
  similarity_threshold : ℝ
  max_context_tokens : ℕ
  context_count : ℕ

/-- Model of `RAGEngine.retrieve_context` (`rag.py` lines 49-77): no-op
when disabled or no index is bound; otherwise runs the index search with
the configured threshold and count inside a `try`, degrading any raised
failure to `([], 0.0)`; an empty result list also yields `([], 0.0)`,
else the results are returned with their mean similarity. -/
noncomputable def RAGEngine.retrieve_context (engine : RAGEngine)
    (query_embedding : Option (List ℝ)) : List (IndexEntry × ℝ) × ℝ :=
  match engine.enabled, engine.embedding_index with
  | false, _ => ([], 0)
  | true, none => ([], 0)
  | true, some entries =>
    match EmbeddingIndex.search entries query_embedding
        engine.context_count engine.similarity_threshold with
    | .error _ => ([], 0)
    | .ok [] => ([], 0)
    | .ok (r :: rs) =>
      (r :: rs, ((r :: rs).map (fun x => x.2)).sum / ((r :: rs).length : ℝ))

/-- Model of `RAGEngine.format_context` (`rag.py` lines 79-104).  The
Python float formatting `f"{x:.1f}"` is not definable over `ℝ`; it is
abstracted as the parameter `fmtPct`, so every theorem below holds for
any rendering of the percentage. -/
noncomputable def RAGEngine.format_context (fmtPct : ℝ → String)
    (_engine : RAGEngine) (context_results : List (IndexEntry × ℝ)) : String :=
  match context_results with
  | [] => ""
  | _ :: _ =>
    let body := String.join (context_results.enum.map (fun p =>
      let i := p.1 + 1
      let result := p.2.1
      let similarity_pct := p.2.2 * 100
      if result.entryType = some "kb_document" then
        "\n[KB Context " ++ Nat.repr i ++ " - Relevance: " ++ fmtPct similarity_pct
          ++ "%]\n" ++ "Document: " ++ result.doc_title.getD "Unknown" ++ "\n"
          ++ "Collection: " ++ result.collection.getD "Unknown" ++ "\n"
          ++ "Text: " ++ (result.text.getD "").take 300 ++ "...\n"
      else
        "\n[Conversation " ++ Nat.repr i ++ " - Relevance: " ++ fmtPct similarity_pct
          ++ "%]\n" ++ "User: " ++ result.user_message.take 200 ++ "...\n"
          ++ "Assistant: " ++ result.assistant_message.take 200 ++ "...\n"))
    "\n\n=== RELEVANT CONTEXT FROM YOUR KNOWLEDGE BASE ===\n" ++ body
      ++ "\n=== END CONTEXT ===\n"

/-- Model of `RAGEngine.augment_prompt` (`rag.py` lines 106-137).  When
no `context_results` argument is supplied the engine retrieves context
for `original_prompt` itself (`query_embedding` is the provider outcome
for that query).  The source builds `augmented_system` and then drops it,
returning the original prompt unchanged. -/
noncomputable def RAGEngine.augment_prompt (fmtPct : ℝ → String)
    (engine : RAGEngine) (original_prompt system_prompt : String)
    (context_results : Option (List (IndexEntry × ℝ)))
    (query_embedding : Option (List ℝ)) : String × List (IndexEntry × ℝ) :=
  if engine.enabled = false then (original_prompt, [])
  else
    let ctx := match context_results with
      | none => (engine.retrieve_context query_embedding).1
      | some c => c
    match ctx with
    | [] => (original_prompt, [])
    | r :: rs =>
      let formatted_context := RAGEngine.format_context fmtPct engine (r :: rs)
      let _augmented_system := system_prompt ++ "\n\n"
        ++ "Use the following context from previous conversations to provide more accurate and informed responses:\n"
        ++ formatted_context
      (original_prompt, r :: rs)

/-- Python `str.strip()`: remove leading and trailing whitespace. -/
def stripChars (l : List Char) : List Char :=
  ((l.dropWhile Char.isWhitespace).reverse.dropWhile Char.isWhitespace).reverse

/-- Python `str.strip()` on a `String`. -/
def pyStrip (s : String) : String := (stripChars s.data).asString

/-- Python `str.split()` with no separator: the maximal whitespace-free
runs of the text (used for the `word_count` of each chunk). -/
def pyWords (l : List Char) : List (List Char) :=
  (l.splitOnP Char.isWhitespace).filter (fun w => !w.isEmpty)

/-- Python `s[-k:]` for `k ≥ 0`: the last `k` characters, except that
`k = 0` yields the whole string (a Python slicing quirk: `s[-0:]` is
`s[0:]`). -/
def takeLast (s : String) (k : ℕ) : String :=
  if k = 0 then s else ((s.data.reverse.take k).reverse).asString

/-- Does the sentence-splitting regex boundary `(?<=[.!?])\s+` start
here: the previous character was `.`/`!`/`?` and this character is
whitespace. -/
def isSentenceEnd (c : Char) : Bool := c = '.' || c = '!' || c = '?'

/-- True when the list starts with a whitespace character. -/
def startsWithSpace : List Char → Bool
  | [] => false
  | c :: _ => c.isWhitespace

/-- Model of `re.split(r'(?<=[.!?])\s+', text)`: cut the text after each
`.`/`!`/`?` that is followed by whitespace, consuming the whole
whitespace run as the delimiter.  `acc` holds the current piece in
reverse. -/
def splitSentencesCore : List Char → List Char → List (List Char)
  | acc, [] => [acc.reverse]
  | acc, c :: rest =>
    if isSentenceEnd c && startsWithSpace rest then
      (c :: acc).reverse :: splitSentencesCore [] (rest.dropWhile Char.isWhitespace)
    else
      splitSentencesCore (c :: acc) rest
termination_by _ l => l.length
decreasing_by
  all_goals simp_wf
  have h := (List.dropWhile_sublist (l := rest) Char.isWhitespace).length_le
  omega

/-- Sentence splitting as used by `chunk_by_sentences`. -/
def splitSentences (text : List Char) : List (List Char) :=
  splitSentencesCore [] text

/-- The length of Python `range(0, stop, step)` for `step ≥ 1`. -/
def pyRangeLen (stop step : ℕ) : ℕ := (stop + step - 1) / step

/-- Model of Python `range(0, stop, step)` for an arbitrary integer
`step`: `step = 0` raises `ValueError`, a negative `step` yields the
empty range (so the loop body never runs), and a positive `step` yields
`0, step, 2*step, ...` below `stop`. -/
def pyRange (stop : ℕ) (step : ℤ) : Except Unit (List ℕ) :=
  if step = 0 then .error ()
  else if step < 0 then .ok []
  else .ok ((List.range (pyRangeLen stop step.toNat)).map (fun j => j * step.toNat))

/-- One chunk produced by the `DocumentChunker` strategies: the chunk
text and its whitespace-delimited word count. -/
structure Chunk where
  text : String
  word_count : ℕ

/-- Model of `DocumentChunker.chunk_by_sentences` (`kb_manager.py` lines
66-92): split into sentences, strip them and drop the empty ones, then
slide a window of `sentence_count` sentences advanced by
`sentence_count - overlap` (Python `range` semantics for the advance). -/
def DocumentChunker.chunk_by_sentences (text : String)
    (sentence_count overlap : ℕ) : Except Unit (List Chunk) :=
  let sentences := ((splitSentences text.data).map stripChars).filter (fun s => !s.isEmpty)
  match pyRange sentences.length ((sentence_count : ℤ) - (overlap : ℤ)) with
  | .error u => .error u
  | .ok idxs => .ok (idxs.filterMap (fun i =>
      let chunk_sentences := (sentences.drop i).take sentence_count
      if chunk_sentences.isEmpty then none
      else
        let chunk_text := List.intercalate [' '] chunk_sentences
        some ⟨chunk_text.asString, (pyWords chunk_text).length⟩))

/-- Model of `DocumentChunker.chunk_by_size` (`kb_manager.py` lines
95-116): slide a window of `chunk_size` characters advanced by
`chunk_size - overlap`, keeping the stripped window text when it is not
whitespace-only. -/
def DocumentChunker.chunk_by_size (text : String)
    (chunk_size overlap : ℕ) : Except Unit (List Chunk) :=
  match pyRange text.length ((chunk_size : ℤ) - (overlap : ℤ)) with
  | .error u => .error u
  | .ok idxs => .ok (idxs.filterMap (fun i =>
      let chunk_text := (text.data.drop i).take chunk_size
      if (stripChars chunk_text).isEmpty then none
      else some ⟨(stripChars chunk_text).asString, (pyWords chunk_text).length⟩))

/-- Python `text.split('\\n\\n')`: cut at every (non-overlapping,
leftmost-first) occurrence of two consecutive newlines, keeping empty
pieces. -/
def splitOnTwoNl : List Char → List (List Char)
  | [] => [[]]
  | '\n' :: '\n' :: rest => [] :: splitOnTwoNl rest
  | c :: rest =>
    match splitOnTwoNl rest with
    | [] => [[c]]
    | w :: ws => (c :: w) :: ws

/-- Model of `DocumentChunker.chunk_by_paragraphs` (`kb_manager.py`
lines 25-63): split on blank lines, accumulate paragraphs into a running
chunk, close the chunk when adding the next paragraph would push it past
1000 characters and seed the next chunk with the last `overlap`
characters, then emit the trailing chunk when non-blank. -/
def DocumentChunker.chunk_by_paragraphs (text : String) (overlap : ℕ) : List Chunk :=
  let paragraphs := (splitOnTwoNl text.data).map List.asString
  let step := fun (acc : List Chunk × String) (para : String) =>
    if (pyStrip para).isEmpty then acc
    else if !acc.2.isEmpty && decide (1000 < acc.2.length + para.length) then
      (acc.1 ++ [⟨pyStrip acc.2, (pyWords acc.2.data).length⟩],
       takeLast acc.2 overlap ++ "\n\n" ++ para)
    else (acc.1, if acc.2.isEmpty then para else acc.2 ++ "\n\n" ++ para)
  let r := paragraphs.foldl step ([], "")
  if !(pyStrip r.2).isEmpty then r.1 ++ [⟨pyStrip r.2, (pyWords r.2.data).length⟩]
  else r.1

/-- Approximation of Python `Path(filepath).stem`: the final path
component without its last extension (a leading dot, as in hidden
files, does not start an extension).  Only the document title depends on
this helper. -/
def pathStem (p : String) : String :=
  let name := (p.data.reverse.takeWhile (fun c => c ≠ '/')).reverse
  let rev := name.reverse
  let afterDot := rev.takeWhile (fun c => c ≠ '.')
  if afterDot.length = rev.length then name.asString
  else if afterDot.length + 1 = rev.length then name.asString
  else ((rev.drop (afterDot.length + 1)).reverse).asString

/-- Python `collection_name.replace(' ', '_')` as used in the document
id. -/
def underscoreName (s : String) : String :=
  (s.data.map (fun c => if c = ' ' then '_' else c)).asString

/-- The document id assigned by `KnowledgeBase.add_document` (line 363):
`f"doc_{collection_name.replace(' ', '_')}_{len(self.index['documents'])}_{int(datetime.now().timestamp())}"`,
where `ndocs` is the running document count of the store and `ts` the
whole-second timestamp. -/
def mkDocId (collection_name : String) (ndocs ts : ℕ) : String :=
  "doc_" ++ underscoreName collection_name ++ "_" ++ Nat.repr ndocs
    ++ "_" ++ Nat.repr ts

/-- A stored knowledge-base document (`kb_manager.py` lines 366-376). -/
structure Document where
  id : String
  title : String
  filepath : String
  collection : String
  chunks : List Chunk
  chunk_count : ℕ
  total_words : ℕ
  added_at : String
  indexed : Bool

/-- The knowledge-base index (`kb_index.json`): registered collection
names and the ids of the stored documents, in insertion order. -/
structure KBIndex where
  collections : List String
  documents : List String

/-- Model of `KnowledgeBase.add_document` (`kb_manager.py` lines
315-396).  File lookup and parsing are external: `fileExists` is the
`os.path.exists` outcome and `content` the `parse_file` result; `ts` is
the whole-second timestamp and `added_at` the ISO timestamp string.
Returns `(state, none)` on each failure path (file missing, unknown
collection, empty content, zero chunks) and the updated state plus the
stored document on success.  The per-collection metadata file update
(document list and derived count) is file persistence, outside this
state model. -/
def KnowledgeBase.add_document (st : KBIndex) (fileExists : Bool)
    (filepath collection_name doc_title chunking_strategy content : String)
    (ts : ℕ) (added_at : String) : Except Unit (KBIndex × Option Document) :=
  if fileExists = false then .ok (st, none)
  else if collection_name ∉ st.collections then .ok (st, none)
  else if content.isEmpty then .ok (st, none)
  else
    let chunksE :=
      if chunking_strategy = "paragraphs" then
        .ok (DocumentChunker.chunk_by_paragraphs content 100)
      else if chunking_strategy = "sentences" then
        DocumentChunker.chunk_by_sentences content 5 1
      else if chunking_strategy = "size" then
        DocumentChunker.chunk_by_size content 500 50
      else .ok (DocumentChunker.chunk_by_paragraphs content 100)
    match chunksE with
    | .error u => .error u
    | .ok chunks =>
      if chunks.isEmpty then .ok (st, none)
      else
        let doc_id := mkDocId collection_name st.documents.length ts
        let title := if doc_title.isEmpty then pathStem filepath else doc_title
        let document : Document :=
          { id := doc_id, title := title, filepath := filepath,
            collection := collection_name, chunks := chunks,
            chunk_count := chunks.length,
            total_words := (chunks.map Chunk.word_count).sum,
            added_at := added_at, indexed := false }
        .ok ({ st with documents := st.documents ++ [doc_id] }, some document)

/-- Decimal digit string of a natural number, most significant digit
first: the reference function for `Nat.repr` (whose `toDigitsCore` is
fuel-based). -/
def decRepr (n : ℕ) : List Char :=
  if _h : n < 10 then [Nat.digitChar n]
  else decRepr (n / 10) ++ [Nat.digitChar (n % 10)]
termination_by n
decreasing_by
  exact Nat.div_lt_self (by omega) (by norm_num)

/-- Characterization of a document-id list produced by repeated
successful `add_document` calls on the same store: the id at position
`k` was minted by `mkDocId` with running count `k` (for some collection
name and timestamp). -/
def DocIdsFromAdds (docs : List String) : Prop :=
  ∀ k : ℕ, (h : k < docs.length) → ∃ name : String, ∃ ts : ℕ,
    docs.get ⟨k, h⟩ = mkDocId name k ts

/-- A concrete conversation-pair entry with a 2-dimensional embedding,
used by the concrete witnesses below. -/
noncomputable def entryA : IndexEntry :=
  { pair_id := "conv1_pair_0", conversation_id := "conv1",
    user_message := "hello", assistant_message := "hi there",
    pair_index := 0, model := "gpt-4o", system_prompt := "sys",
    timestamp := "2025-01-01T00:00:00", embedding := [1, 0] }

/-- A second concrete entry with a 2-dimensional embedding. -/
noncomputable def entryB : IndexEntry :=
  { pair_id := "conv1_pair_1", conversation_id := "conv1",
    user_message := "bye", assistant_message := "goodbye",
    pair_index := 1, model := "gpt-4o", system_prompt := "sys",
    timestamp := "2025-01-01T00:00:01", embedding := [0, 1] }

/-- A disabled RAG engine with no index bound (the initial state). -/
noncomputable def sampleDisabledEngine : RAGEngine :=
  { embedding_index := none, enabled := false,
    similarity_threshold := 0.15, max_context_tokens := 2000,
    context_count := 3 }

/-- An enabled RAG engine bound to a one-entry index. -/
noncomputable def sampleEnabledEngine : RAGEngine :=
  { embedding_index := some [entryA], enabled := true,
    similarity_threshold := 0.15, max_context_tokens := 2000,
    context_count := 3 }

lemma searchLoop_ok_of_dims (q : List ℝ) (t : ℝ) (entries : List IndexEntry)
    (h : ∀ e ∈ entries, e.embedding.length = q.length) :
    searchLoop q t entries =
      .ok ((entries.map (fun e => (e, cosineSimilarity q e.embedding))).filter
        (fun p => decide (t ≤ p.2))) := by
  induction entries with
  | nil => rfl
  | cons e rest ih =>
    have he : e.embedding.length = q.length := h e (by simp)
    have hrest := ih (fun x hx => h x (by simp [hx]))
    simp only [searchLoop, cosineSimilarityChecked, he, if_pos rfl, hrest,
      List.map_cons, List.filter_cons]
    by_cases hs : t ≤ cosineSimilarity q e.embedding <;> simp [hs]

lemma search_ok_of_dims (entries : List IndexEntry) (q : List ℝ) (k : ℕ) (t : ℝ)
    (h : ∀ e ∈ entries, e.embedding.length = q.length) :
    EmbeddingIndex.search entries (some q) k t =
      .ok ((((entries.map (fun e => (e, cosineSimilarity q e.embedding))).filter
        (fun p => decide (t ≤ p.2))).mergeSort descBySim).take k) := by
  cases entries with
  | nil => simp [EmbeddingIndex.search]
  | cons e rest =>
    simp only [EmbeddingIndex.search]
    rw [searchLoop_ok_of_dims q t (e :: rest) h]

lemma searchLoop_error_of_mismatch (q : List ℝ) (t : ℝ) :
    ∀ (entries : List IndexEntry) (e : IndexEntry), e ∈ entries →
      e.embedding.length ≠ q.length → searchLoop q t entries = .error () := by
  intro entries
  induction entries with
  | nil => intro e he _; simp at he
  | cons x rest ih =>
    intro e he hl
    rcases List.mem_cons.mp he with rfl | hmem
    · have hx : ¬ (q.length = e.embedding.length) := fun hh => hl hh.symm
      simp [searchLoop, cosineSimilarityChecked, hx]
    · by_cases hx : q.length = x.embedding.length
      · simp [searchLoop, cosineSimilarityChecked, hx, ih e hmem hl]
      · simp [searchLoop, cosineSimilarityChecked, hx]

lemma search_error_of_mismatch (entries : List IndexEntry) (q : List ℝ) (k : ℕ)
    (t : ℝ) (e : IndexEntry) (he : e ∈ entries)
    (hl : e.embedding.length ≠ q.length) :
    EmbeddingIndex.search entries (some q) k t = .error () := by
  cases entries with
  | nil => simp at he
  | cons x rest =>
    simp only [EmbeddingIndex.search]
    rw [searchLoop_error_of_mismatch q t (x :: rest) e he hl]

/-- Claim C5: whenever the RAG engine is disabled (`enabled = false`) or
has no embedding index bound, `RAGEngine.retrieve_context` returns the
pair `([], 0.0)`, regardless of the contents of the index and of the
query. -/
theorem retrieve_context_gating (engine : RAGEngine)
    (query_embedding : Option (List ℝ))
    (h : engine.enabled = false ∨ engine.embedding_index = none) :
    engine.retrieve_context query_embedding = ([], 0) := by
  rcases h with h | h
  · simp [RAGEngine.retrieve_context, h]
  · cases he : engine.enabled <;> simp [RAGEngine.retrieve_context, h, he]

/-- Concrete instance of C5: the initial (disabled, index-less) engine
returns no context for a concrete query. -/
theorem retrieve_context_gating_witness :
    sampleDisabledEngine.retrieve_context (some [1, 0]) = ([], 0) :=
  retrieve_context_gating sampleDisabledEngine (some [1, 0]) (Or.inl rfl)

/-- Claim C6: with the engine enabled and an index bound, a failing
embedding provider (modelled by `none`, since `embed_text` returns `None`
on failure) and a raising index search are both absorbed inside
`retrieve_context`, which returns `([], 0.0)` rather than propagating
the failure. -/
theorem retrieve_context_catches_failures (engine : RAGEngine)
    (entries : List IndexEntry) (hen : engine.enabled = true)
    (hidx : engine.embedding_index = some entries) :
    engine.retrieve_context none = ([], 0) ∧
    ∀ q : List ℝ,
      EmbeddingIndex.search entries (some q) engine.context_count
        engine.similarity_threshold = .error () →
      engine.retrieve_context (some q) = ([], 0) := by
  constructor
  · cases entries with
    | nil => simp [RAGEngine.retrieve_context, hen, hidx, EmbeddingIndex.search]
    | cons e rest =>
      simp [RAGEngine.retrieve_context, hen, hidx, EmbeddingIndex.search]
  · intro q hq
    simp [RAGEngine.retrieve_context, hen, hidx, hq]

/-- Concrete instance of C6: a query whose 3-dimensional embedding
mismatches the stored 2-dimensional entry makes the search raise, and
the enabled engine still answers `([], 0.0)`; a provider failure
(`none`) does the same. -/
theorem retrieve_context_catches_failures_witness :
    sampleEnabledEngine.retrieve_context none = ([], 0) ∧
    sampleEnabledEngine.retrieve_context (some [1, 0, 0]) = ([], 0) := by
  have h := retrieve_context_catches_failures sampleEnabledEngine [entryA] rfl rfl
  refine ⟨h.1, h.2 [1, 0, 0] ?_⟩
  exact search_error_of_mismatch [entryA] [1, 0, 0] _ _ entryA (by simp)
    (by simp [entryA])

/-- Claim C9: `max_context_tokens` does not influence retrieval or
formatting: changing only that configuration field leaves the outputs of
`retrieve_context` and `format_context` unchanged (truncation happens
only via `top_k` and the fixed per-field character prefixes in
`format_context`). -/
theorem max_context_tokens_advisory (engine : RAGEngine) (n : ℕ)
    (fmtPct : ℝ → String) (query_embedding : Option (List ℝ))
    (context_results : List (IndexEntry × ℝ)) :
    ({ engine with max_context_tokens := n } : RAGEngine).retrieve_context
        query_embedding = engine.retrieve_context query_embedding ∧
    RAGEngine.format_context fmtPct { engine with max_context_tokens := n }
        context_results = RAGEngine.format_context fmtPct engine context_results := by
  cases engine
  exact ⟨rfl, rfl⟩

/-- Claim C10: `RAGEngine.augment_prompt` returns `original_prompt`
unchanged as the first component of its result on every control path
(disabled, no context, context supplied or retrieved); the
`augmented_system` string it builds internally is dropped and never part
of the returned pair. -/
theorem augment_prompt_returns_original (fmtPct : ℝ → String)
    (engine : RAGEngine) (original_prompt system_prompt : String)
    (context_results : Option (List (IndexEntry × ℝ)))
    (query_embedding : Option (List ℝ)) :
    (RAGEngine.augment_prompt fmtPct engine original_prompt system_prompt
      context_results query_embedding).1 = original_prompt := by
  unfold RAGEngine.augment_prompt
  by_cases h : engine.enabled = false
  · simp [h]
  · simp only [h, if_false]
    rcases hc : (match context_results with
      | none => (engine.retrieve_context query_embedding).1
      | some c => c) with _ | ⟨r, rs⟩ <;> simp [hc]

lemma descBySim_trans (a b c : IndexEntry × ℝ) :
    descBySim a b → descBySim b c → descBySim a c := by
  simp only [descBySim, decide_eq_true_eq]
  exact fun hab hbc => le_trans hbc hab

lemma descBySim_total (a b : IndexEntry × ℝ) : descBySim a b || descBySim b a := by
  simp only [descBySim, Bool.or_eq_true, decide_eq_true_eq]
  exact le_total b.2 a.2

/-- Claim C1: for every stored index and query embedding (all entry
vectors having the query dimension), `EmbeddingIndex.search` returns the
first `top_k` elements of a list `s` that is a permutation of exactly
the threshold-clearing scored entries (in particular empty when the
index is empty or no entry clears the threshold), is sorted by
descending similarity, keeps tied entries in insertion order (stable
sort), and has at most `top_k` elements after truncation. -/
theorem search_filter_sort_truncate (entries : List IndexEntry) (q : List ℝ)
    (k : ℕ) (t : ℝ)
    (hdim : ∀ e ∈ entries, e.embedding.length = q.length) :
    ∃ s : List (IndexEntry × ℝ),
      EmbeddingIndex.search entries (some q) k t = .ok (s.take k) ∧
      s.Perm ((entries.map (fun e => (e, cosineSimilarity q e.embedding))).filter
        (fun p => decide (t ≤ p.2))) ∧
      s.Pairwise (fun a b => b.2 ≤ a.2) ∧
      (∀ a b : IndexEntry × ℝ,
        List.Sublist [a, b] ((entries.map (fun e => (e, cosineSimilarity q e.embedding))).filter
          (fun p => decide (t ≤ p.2))) → a.2 = b.2 → List.Sublist [a, b] s) ∧
      (s.take k).length ≤ k ∧
      (entries = [] → s = []) ∧
      ((entries.map (fun e => (e, cosineSimilarity q e.embedding))).filter
        (fun p => decide (t ≤ p.2)) = [] → s = []) := by
  set filtered := (entries.map (fun e => (e, cosineSimilarity q e.embedding))).filter
    (fun p => decide (t ≤ p.2)) with hfiltered
  refine ⟨filtered.mergeSort descBySim, ?_, ?_, ?_, ?_, ?_, ?_, ?_⟩
  · exact search_ok_of_dims entries q k t hdim
  · exact List.mergeSort_perm filtered descBySim
  · exact (List.sorted_mergeSort descBySim_trans descBySim_total filtered).imp
      (fun h => by simpa [descBySim] using h)
  · intro a b hab htie
    exact List.pair_sublist_mergeSort descBySim_trans descBySim_total
      (by simp [descBySim, htie.ge]) hab
  · simp [List.length_take]
  · intro h
    simp [hfiltered, h]
  · intro h
    simp [h]

/-- Concrete instance of C1: a two-entry index with 2-dimensional
vectors searched with a 2-dimensional query. -/
theorem search_filter_sort_truncate_witness :
    ∃ s : List (IndexEntry × ℝ),
      EmbeddingIndex.search [entryA, entryB] (some [1, 0]) 5 0 = .ok (s.take 5) ∧
      s.Perm (([entryA, entryB].map
        (fun e => (e, cosineSimilarity [1, 0] e.embedding))).filter
        (fun p => decide ((0 : ℝ) ≤ p.2))) ∧
      s.Pairwise (fun a b => b.2 ≤ a.2) ∧
      (∀ a b : IndexEntry × ℝ,
        List.Sublist [a, b] (([entryA, entryB].map
          (fun e => (e, cosineSimilarity [1, 0] e.embedding))).filter
          (fun p => decide ((0 : ℝ) ≤ p.2))) → a.2 = b.2 → List.Sublist [a, b] s) ∧
      (s.take 5).length ≤ 5 ∧
      (([entryA, entryB] : List IndexEntry) = [] → s = []) ∧
      (([entryA, entryB].map
        (fun e => (e, cosineSimilarity [1, 0] e.embedding))).filter
        (fun p => decide ((0 : ℝ) ≤ p.2)) = [] → s = []) :=
  search_filter_sort_truncate [entryA, entryB] [1, 0] 5 0
    (by simp [entryA, entryB])

lemma length_filter_mono {α : Type} (p q : α → Bool) (l : List α)
    (h : ∀ a, q a = true → p a = true) :
    (l.filter q).length ≤ (l.filter p).length := by
  induction l with
  | nil => simp
  | cons x xs ih =>
    by_cases hq : q x = true
    · simp only [List.filter_cons, hq, h x hq, if_true, List.length_cons]
      omega
    · by_cases hp : p x = true <;>
        simp only [List.filter_cons, hq, hp, if_true, if_false,
          Bool.false_eq_true, List.length_cons] <;> omega

/-- Claim C4: for a fixed index and query embedding, raising the
similarity threshold never increases the number of results, and for
every `top_k` the number of results is at most `top_k`. -/
theorem search_threshold_monotone (entries : List IndexEntry) (q : List ℝ)
    (k : ℕ) (t1 t2 : ℝ)
    (hdim : ∀ e ∈ entries, e.embedding.length = q.length)
    (ht : t1 ≤ t2) :
    ∃ r1 r2 : List (IndexEntry × ℝ),
      EmbeddingIndex.search entries (some q) k t1 = .ok r1 ∧
      EmbeddingIndex.search entries (some q) k t2 = .ok r2 ∧
      r2.length ≤ r1.length ∧ r1.length ≤ k ∧ r2.length ≤ k := by
  refine ⟨_, _, search_ok_of_dims entries q k t1 hdim,
    search_ok_of_dims entries q k t2 hdim, ?_, ?_, ?_⟩
  · have hmono := length_filter_mono (fun p => decide (t1 ≤ p.2))
      (fun p => decide (t2 ≤ p.2))
      (entries.map (fun e => (e, cosineSimilarity q e.embedding)))
      (fun a ha => by
        simp only [decide_eq_true_eq] at ha ⊢
        exact le_trans ht ha)
    simp only [List.length_take, List.length_mergeSort]
    omega
  · simp [List.length_take]
  · simp [List.length_take]

/-- Concrete instance of C4 at thresholds `0 ≤ 1/2` on a two-entry
index. -/
theorem search_threshold_monotone_witness :
    ∃ r1 r2 : List (IndexEntry × ℝ),
      EmbeddingIndex.search [entryA, entryB] (some [1, 0]) 5 0 = .ok r1 ∧
      EmbeddingIndex.search [entryA, entryB] (some [1, 0]) 5 (1 / 2) = .ok r2 ∧
      r2.length ≤ r1.length ∧ r1.length ≤ 5 ∧ r2.length ≤ 5 :=
  search_threshold_monotone [entryA, entryB] [1, 0] 5 0 (1 / 2)
    (by simp [entryA, entryB]) (by norm_num)

/-- Counterexample to claim C2 as stated: a stored entry whose
2-dimensional vector mismatches the 3-dimensional query is not skipped;
the whole search raises (models `sklearn` raising `ValueError`), so no
result list is produced at all. -/
theorem search_dim_mismatch_counterexample :
    EmbeddingIndex.search [entryA] (some [1, 0, 0]) 5 0 = .error () :=
  search_error_of_mismatch [entryA] [1, 0, 0] 5 0 entryA (by simp)
    (by simp [entryA])

/-- Claim C2 (amended): a stored entry whose vector length differs from
the query vector's length is not skipped; the similarity computation
raises and the whole search aborts with that error (the only layer that
catches it is `RAGEngine.retrieve_context`). -/
theorem search_aborts_on_dim_mismatch (entries : List IndexEntry)
    (q : List ℝ) (k : ℕ) (t : ℝ) (e : IndexEntry) (he : e ∈ entries)
    (hl : e.embedding.length ≠ q.length) :
    EmbeddingIndex.search entries (some q) k t = .error () :=
  search_error_of_mismatch entries q k t e he hl

/-- Concrete instance of the amended C2: a mixed index with one
well-dimensioned and one mismatched entry still makes the whole search
raise. -/
theorem search_aborts_on_dim_mismatch_witness :
    EmbeddingIndex.search [entryB, entryA] (some [1, 0, 0]) 5 0 = .error () :=
  search_aborts_on_dim_mismatch [entryB, entryA] [1, 0, 0] 5 0 entryA
    (by simp) (by simp [entryA])

lemma mem_map_pair_id_upsertEntry (l : List IndexEntry) (e : IndexEntry) :
    e.pair_id ∈ (upsertEntry l e).map IndexEntry.pair_id := by
  induction l with
  | nil => simp [upsertEntry]
  | cons x xs ih =>
    by_cases hx : x.pair_id = e.pair_id <;> simp [upsertEntry, hx, ih]

lemma upsertEntry_map_pair_id_of_mem (l : List IndexEntry) (e : IndexEntry)
    (h : e.pair_id ∈ l.map IndexEntry.pair_id) :
    (upsertEntry l e).map IndexEntry.pair_id = l.map IndexEntry.pair_id := by
  induction l with
  | nil => simp at h
  | cons x xs ih =>
    by_cases hx : x.pair_id = e.pair_id
    · simp [upsertEntry, hx]
    · have hxs : e.pair_id ∈ xs.map IndexEntry.pair_id := by
        rcases List.mem_map.mp h with ⟨y, hy, hye⟩
        rcases List.mem_cons.mp hy with rfl | hytail
        · exact absurd hye hx
        · exact List.mem_map.mpr ⟨y, hytail, hye⟩
      simp [upsertEntry, hx, ih hxs]

lemma upsertEntry_map_pair_id_of_not_mem (l : List IndexEntry) (e : IndexEntry)
    (h : e.pair_id ∉ l.map IndexEntry.pair_id) :
    (upsertEntry l e).map IndexEntry.pair_id
      = l.map IndexEntry.pair_id ++ [e.pair_id] := by
  induction l with
  | nil => simp [upsertEntry]
  | cons x xs ih =>
    simp only [List.map_cons, List.mem_cons] at h
    push_neg at h
    have hx : ¬ x.pair_id = e.pair_id := fun hh => h.1 hh.symm
    simp [upsertEntry, hx, ih h.2]

lemma upsertEntry_nodup (l : List IndexEntry) (e : IndexEntry)
    (h : (l.map IndexEntry.pair_id).Nodup) :
    ((upsertEntry l e).map IndexEntry.pair_id).Nodup := by
  by_cases hm : e.pair_id ∈ l.map IndexEntry.pair_id
  · rw [upsertEntry_map_pair_id_of_mem l e hm]
    exact h
  · rw [upsertEntry_map_pair_id_of_not_mem l e hm]
    simp [List.nodup_append, h, hm]

lemma filter_pair_id_eq_nil (l : List IndexEntry) (key : String)
    (h : key ∉ l.map IndexEntry.pair_id) :
    l.filter (fun x => x.pair_id == key) = [] := by
  rw [List.filter_eq_nil_iff]
  intro a ha hk
  exact h (List.mem_map.mpr ⟨a, ha, by simpa using hk⟩)

lemma upsertEntry_filter_self (l : List IndexEntry) (e : IndexEntry)
    (h : (l.map IndexEntry.pair_id).Nodup) :
    (upsertEntry l e).filter (fun x => x.pair_id == e.pair_id) = [e] := by
  induction l with
  | nil => simp [upsertEntry]
  | cons x xs ih =>
    by_cases hx : x.pair_id = e.pair_id
    · have hnm : e.pair_id ∉ xs.map IndexEntry.pair_id := by
        simp only [List.map_cons, List.nodup_cons] at h
        rw [← hx]
        exact h.1
      simp [upsertEntry, hx, List.filter_cons,
        filter_pair_id_eq_nil xs e.pair_id hnm]
    · simp only [List.map_cons, List.nodup_cons] at h
      simp [upsertEntry, hx, List.filter_cons, ih h.2]

lemma foldl_upsertEntry_nodup (batch : List IndexEntry) :
    ∀ index : List IndexEntry, (index.map IndexEntry.pair_id).Nodup →
    ((batch.foldl upsertEntry index).map IndexEntry.pair_id).Nodup := by
  induction batch with
  | nil => intro index h; exact h
  | cons b bs ih =>
    intro index h
    exact ih (upsertEntry index b) (upsertEntry_nodup index b h)

lemma index_conversation_nodup (index : List IndexEntry)
    (conversation_id : String) (messages : List Message)
    (system_prompt model ts : String)
    (embedBatchResult : Option (List (List ℝ)))
    (h : (index.map IndexEntry.pair_id).Nodup) :
    ((EmbeddingIndex.index_conversation index conversation_id messages
      system_prompt model ts embedBatchResult).map IndexEntry.pair_id).Nodup := by
  unfold EmbeddingIndex.index_conversation
  dsimp only
  split
  · exact h
  · split
    · exact h
    · exact foldl_upsertEntry_nodup _ index h

/-- Claim C3: upserting an entry whose `pair_id` already exists replaces
the prior entry: after two upserts under the same key (with any two
embeddings) the index holds exactly one entry for that key, namely the
second one; and `index_conversation` preserves uniqueness of the
`pair_id` keys on every call. -/
theorem index_upsert_replaces_and_keys_unique :
    (∀ (l : List IndexEntry) (e1 e2 : IndexEntry),
      e2.pair_id = e1.pair_id →
      (l.map IndexEntry.pair_id).Nodup →
      (upsertEntry (upsertEntry l e1) e2).filter
        (fun x => x.pair_id == e1.pair_id) = [e2]) ∧
    (∀ (index : List IndexEntry) (conversation_id : String)
      (messages : List Message) (system_prompt model ts : String)
      (embedBatchResult : Option (List (List ℝ))),
      (index.map IndexEntry.pair_id).Nodup →
      ((EmbeddingIndex.index_conversation index conversation_id messages
        system_prompt model ts embedBatchResult).map IndexEntry.pair_id).Nodup) := by
  constructor
  · intro l e1 e2 hk hnodup
    rw [← hk]
    exact upsertEntry_filter_self (upsertEntry l e1) e2
      (upsertEntry_nodup l e1 hnodup)
  · intro index cid messages sp model ts emb h
    exact index_conversation_nodup index cid messages sp model ts emb h

/-- Concrete instance of C3: upserting key `"conv1_pair_0"` twice with
embeddings `[1, 0]` then `[3, 4]` leaves exactly one entry for that key,
carrying the second embedding; a concrete `index_conversation` call
keeps keys unique. -/
theorem index_upsert_replaces_and_keys_unique_witness :
    (upsertEntry (upsertEntry [entryB] entryA)
      { entryA with embedding := [3, 4] }).filter
      (fun x => x.pair_id == entryA.pair_id)
      = [{ entryA with embedding := [3, 4] }] ∧
    ((EmbeddingIndex.index_conversation [entryA] "conv2"
      [⟨"user", "hi"⟩, ⟨"assistant", "hello"⟩] "sys" "gpt-4o" "t"
      (some [[1, 0]])).map IndexEntry.pair_id).Nodup :=
  ⟨index_upsert_replaces_and_keys_unique.1 [entryB] entryA
      { entryA with embedding := [3, 4] } rfl (by simp [entryB]),
   index_upsert_replaces_and_keys_unique.2 [entryA] "conv2"
      [⟨"user", "hi"⟩, ⟨"assistant", "hello"⟩] "sys" "gpt-4o" "t"
      (some [[1, 0]]) (by simp [entryA])⟩

lemma pyRange_pos (stop : ℕ) (step : ℤ) (h : 1 ≤ step) :
    pyRange stop step
      = .ok ((List.range (pyRangeLen stop step.toNat)).map
        (fun j => j * step.toNat)) := by
  have h0 : ¬ step = 0 := by omega
  have h1 : ¬ step < 0 := by omega
  simp [pyRange, h0, h1]

lemma pyRange_zero (stop : ℕ) : pyRange stop 0 = .error () := by
  simp [pyRange]

lemma pyRange_neg (stop : ℕ) (step : ℤ) (h : step < 0) :
    pyRange stop step = .ok [] := by
  have h0 : ¬ step = 0 := by omega
  simp [pyRange, h0, h]

/-- Claim C7: both window chunkers are total for every input text.  With
advance `≥ 1` (`sentence_count - overlap`, resp. `chunk_size - overlap`)
they return a finite chunk list; advance `= 0` is rejected (Python
`range` raises `ValueError` on step 0) and a negative advance yields an
empty range, returning `[]` immediately — no parameter combination loops
forever. -/
theorem chunkers_terminate (text : String) (sentence_count overlap chunk_size : ℕ) :
    (1 ≤ (sentence_count : ℤ) - (overlap : ℤ) →
      ∃ l, DocumentChunker.chunk_by_sentences text sentence_count overlap = .ok l) ∧
    ((sentence_count : ℤ) - (overlap : ℤ) = 0 →
      DocumentChunker.chunk_by_sentences text sentence_count overlap = .error ()) ∧
    ((sentence_count : ℤ) - (overlap : ℤ) < 0 →
      DocumentChunker.chunk_by_sentences text sentence_count overlap = .ok []) ∧
    (1 ≤ (chunk_size : ℤ) - (overlap : ℤ) →
      ∃ l, DocumentChunker.chunk_by_size text chunk_size overlap = .ok l) ∧
    ((chunk_size : ℤ) - (overlap : ℤ) = 0 →
      DocumentChunker.chunk_by_size text chunk_size overlap = .error ()) ∧
    ((chunk_size : ℤ) - (overlap : ℤ) < 0 →
      DocumentChunker.chunk_by_size text chunk_size overlap = .ok []) := by
  refine ⟨?_, ?_, ?_, ?_, ?_, ?_⟩
  · intro h
    unfold DocumentChunker.chunk_by_sentences
    simp only [pyRange_pos _ _ h]
    exact ⟨_, rfl⟩
  · intro h
    unfold DocumentChunker.chunk_by_sentences
    simp only [h, pyRange_zero]
  · intro h
    unfold DocumentChunker.chunk_by_sentences
    simp only [pyRange_neg _ _ h]
    rfl
  · intro h
    unfold DocumentChunker.chunk_by_size
    simp only [pyRange_pos _ _ h]
    exact ⟨_, rfl⟩
  · intro h
    unfold DocumentChunker.chunk_by_size
    simp only [h, pyRange_zero]
  · intro h
    unfold DocumentChunker.chunk_by_size
    simp only [pyRange_neg _ _ h]
    rfl

/-- Concrete instances of C7: the default parameters produce chunk
lists; advance 0 raises; negative advance returns no chunks. -/
theorem chunkers_terminate_witness :
    (∃ l, DocumentChunker.chunk_by_sentences "Hi there. Bye." 5 1 = .ok l) ∧
    DocumentChunker.chunk_by_sentences "Hi there. Bye." 5 5 = .error () ∧
    DocumentChunker.chunk_by_sentences "Hi there. Bye." 5 7 = .ok [] ∧
    (∃ l, DocumentChunker.chunk_by_size "Hi there. Bye." 500 50 = .ok l) ∧
    DocumentChunker.chunk_by_size "Hi there. Bye." 5 5 = .error () ∧
    DocumentChunker.chunk_by_size "Hi there. Bye." 5 7 = .ok [] :=
  ⟨(chunkers_terminate "Hi there. Bye." 5 1 500).1 (by decide),
   (chunkers_terminate "Hi there. Bye." 5 5 500).2.1 (by decide),
   (chunkers_terminate "Hi there. Bye." 5 7 500).2.2.1 (by decide),
   (chunkers_terminate "Hi there. Bye." 500 50 500).2.2.2.1 (by decide),
   (chunkers_terminate "Hi there. Bye." 5 5 5).2.2.2.2.1 (by decide),
   (chunkers_terminate "Hi there. Bye." 5 7 5).2.2.2.2.2 (by decide)⟩

lemma decRepr_small {n : ℕ} (h : n < 10) : decRepr n = [Nat.digitChar n] := by
  rw [decRepr]
  simp [h]

lemma decRepr_large {n : ℕ} (h : ¬ n < 10) :
    decRepr n = decRepr (n / 10) ++ [Nat.digitChar (n % 10)] := by
  rw [decRepr]
  simp [h]

lemma decRepr_ne_nil (n : ℕ) : decRepr n ≠ [] := by
  by_cases h : n < 10
  · rw [decRepr_small h]
    simp
  · rw [decRepr_large h]
    simp

lemma digitChar_inj_lt : ∀ d < 10, ∀ e < 10,
    Nat.digitChar d = Nat.digitChar e → d = e := by decide

lemma digitChar_ne_underscore : ∀ d < 10, Nat.digitChar d ≠ '_' := by decide

lemma toDigitsCore_eq_decRepr :
    ∀ (n f : ℕ) (acc : List Char), n < f →
      Nat.toDigitsCore 10 f n acc = decRepr n ++ acc := by
  intro n
  induction n using Nat.strongRecOn with
  | ind n ih =>
    intro f acc hf
    match f with
    | g + 1 =>
      by_cases h10 : n / 10 = 0
      · have hn : n < 10 := by
          by_contra hge
          have h1 : 1 ≤ n / 10 := (Nat.one_le_div_iff (by norm_num)).mpr (by omega)
          omega
        rw [decRepr_small hn]
        simp [Nat.toDigitsCore, h10, Nat.mod_eq_of_lt hn]
      · have hn : ¬ n < 10 := fun hlt => h10 (Nat.div_eq_of_lt hlt)
        have hdiv : n / 10 < n := Nat.div_lt_self (by omega) (by norm_num)
        have hfg : n / 10 < g := by omega
        rw [decRepr_large hn]
        have hstep : Nat.toDigitsCore 10 (g + 1) n acc
            = Nat.toDigitsCore 10 g (n / 10) (Nat.digitChar (n % 10) :: acc) := by
          simp [Nat.toDigitsCore, h10]
        rw [hstep, ih (n / 10) hdiv g _ hfg]
        simp

lemma decRepr_no_underscore :
    ∀ (n : ℕ), ∀ c ∈ decRepr n, c ≠ '_' := by
  intro n
  induction n using Nat.strongRecOn with
  | ind n ih =>
    intro c hc
    by_cases hn : n < 10
    · rw [decRepr_small hn] at hc
      simp at hc
      exact hc ▸ digitChar_ne_underscore n hn
    · rw [decRepr_large hn] at hc
      rcases List.mem_append.mp hc with hc | hc
      · exact ih (n / 10) (Nat.div_lt_self (by omega) (by norm_num)) c hc
      · simp at hc
        exact hc ▸ digitChar_ne_underscore (n % 10) (Nat.mod_lt n (by norm_num))

lemma decRepr_injective : ∀ (m n : ℕ), decRepr m = decRepr n → m = n := by
  intro m
  induction m using Nat.strongRecOn with
  | ind m ih =>
    intro n h
    by_cases hm : m < 10 <;> by_cases hn : n < 10
    · rw [decRepr_small hm, decRepr_small hn] at h
      simp at h
      exact digitChar_inj_lt m hm n hn h
    · rw [decRepr_small hm, decRepr_large hn] at h
      have hlen := congrArg List.length h
      simp at hlen
      exact absurd hlen (decRepr_ne_nil (n / 10))
    · rw [decRepr_large hm, decRepr_small hn] at h
      have hlen := congrArg List.length h
      simp at hlen
      exact absurd hlen (decRepr_ne_nil (m / 10))
    · rw [decRepr_large hm, decRepr_large hn] at h
      obtain ⟨h1, h2⟩ := List.append_inj' h (by simp)
      simp at h2
      have hmod : m % 10 = n % 10 :=
        digitChar_inj_lt _ (Nat.mod_lt _ (by norm_num)) _
          (Nat.mod_lt _ (by norm_num)) h2
      have hdiv : m / 10 = n / 10 :=
        ih (m / 10) (Nat.div_lt_self (by omega) (by norm_num)) (n / 10) h1
      omega

lemma nat_repr_eq_decRepr (n : ℕ) : Nat.repr n = (decRepr n).asString := by
  show (Nat.toDigitsCore 10 (n + 1) n []).asString = _
  rw [toDigitsCore_eq_decRepr n (n + 1) [] (by omega)]
  simp

lemma nat_repr_injective (m n : ℕ) (h : Nat.repr m = Nat.repr n) : m = n := by
  apply decRepr_injective
  have h2 : (decRepr m).asString = (decRepr n).asString := by
    rw [← nat_repr_eq_decRepr, ← nat_repr_eq_decRepr]
    exact h
  exact congrArg String.data h2

lemma nat_repr_no_underscore (n : ℕ) :
    ∀ c ∈ (Nat.repr n).data, c ≠ '_' := by
  rw [nat_repr_eq_decRepr]
  exact decRepr_no_underscore n

lemma splitLastUnderscore :
    ∀ (u1 u2 v1 v2 : List Char), (∀ c ∈ v1, c ≠ '_') → (∀ c ∈ v2, c ≠ '_') →
      u1 ++ '_' :: v1 = u2 ++ '_' :: v2 → u1 = u2 ∧ v1 = v2 := by
  intro u1
  induction u1 with
  | nil =>
    intro u2 v1 v2 h1 h2 heq
    cases u2 with
    | nil =>
      simp at heq
      exact ⟨rfl, heq⟩
    | cons d u2 =>
      simp at heq
      exact absurd rfl (h1 '_' (by rw [heq.2]; simp))
  | cons c u1 ih =>
    intro u2 v1 v2 h1 h2 heq
    cases u2 with
    | nil =>
      simp at heq
      exact absurd rfl (h2 '_' (by rw [← heq.2]; simp))
    | cons d u2 =>
      simp only [List.cons_append, List.cons.injEq] at heq
      obtain ⟨hcd, htail⟩ := heq
      obtain ⟨hu, hv⟩ := ih u2 v1 v2 h1 h2 htail
      exact ⟨by rw [hcd, hu], hv⟩

lemma mkDocId_count_inj (name1 name2 : String) (n1 t1 n2 t2 : ℕ)
    (h : mkDocId name1 n1 t1 = mkDocId name2 n2 t2) : n1 = n2 := by
  have hd := congrArg String.data h
  have hu : ("_" : String).data = ['_'] := rfl
  simp only [mkDocId, String.data_append, hu] at hd
  have hsplit := splitLastUnderscore
    ("doc_".data ++ (underscoreName name1).data ++ '_' :: (Nat.repr n1).data)
    ("doc_".data ++ (underscoreName name2).data ++ '_' :: (Nat.repr n2).data)
    ((Nat.repr t1).data) ((Nat.repr t2).data)
    (nat_repr_no_underscore t1) (nat_repr_no_underscore t2)
    (by simpa [List.append_assoc] using hd)
  have hsplit2 := splitLastUnderscore
    ("doc_".data ++ (underscoreName name1).data)
    ("doc_".data ++ (underscoreName name2).data)
    ((Nat.repr n1).data) ((Nat.repr n2).data)
    (nat_repr_no_underscore n1) (nat_repr_no_underscore n2)
    (by simpa [List.append_assoc] using hsplit.1)
  exact nat_repr_injective n1 n2 (String.ext hsplit2.2)

lemma mkDocId_fresh (docs : List String) (hinv : DocIdsFromAdds docs)
    (name : String) (ts : ℕ) : mkDocId name docs.length ts ∉ docs := by
  intro hmem
  obtain ⟨⟨k, hk⟩, hget⟩ := List.mem_iff_get.mp hmem
  obtain ⟨nm, t2, hid⟩ := hinv k hk
  have hlen : docs.length = k :=
    mkDocId_count_inj name nm docs.length ts k t2 (hget.symm.trans hid)
  omega

lemma docIdsFromAdds_append (docs : List String) (hinv : DocIdsFromAdds docs)
    (name : String) (ts : ℕ) :
    DocIdsFromAdds (docs ++ [mkDocId name docs.length ts]) := by
  intro k hk
  have hk2 : k < docs.length + 1 := by simpa using hk
  by_cases h : k < docs.length
  · obtain ⟨nm, t2, hid⟩ := hinv k h
    refine ⟨nm, t2, ?_⟩
    rw [List.get_eq_getElem] at hid ⊢
    rw [List.getElem_append_left h]
    exact hid
  · have hke : k = docs.length := by omega
    refine ⟨name, ts, ?_⟩
    rw [List.get_eq_getElem]
    subst hke
    rw [List.getElem_append_right (le_refl docs.length)]
    simp

/-- Claim C8: a successful `add_document` call mints a document id (from
collection name, running document count and whole-second timestamp) that
differs from every id previously added to the same store — even for
repeated calls within the same clock second, because the running count
component is strictly increasing and recoverable from the id (the count
and timestamp fields contain no underscore).  The freshness invariant is
preserved, so it holds along any sequence of successful calls. -/
theorem add_document_assigns_fresh_id (st : KBIndex) (fileExists : Bool)
    (filepath collection_name doc_title chunking_strategy content : String)
    (ts : ℕ) (added_at : String) (st2 : KBIndex) (d : Document)
    (hinv : DocIdsFromAdds st.documents)
    (hsucc : KnowledgeBase.add_document st fileExists filepath collection_name
      doc_title chunking_strategy content ts added_at = .ok (st2, some d)) :
    d.id ∉ st.documents ∧ st2.documents = st.documents ++ [d.id] ∧
      DocIdsFromAdds st2.documents := by
  by_cases h1 : fileExists = false
  · simp [KnowledgeBase.add_document, h1] at hsucc
  · by_cases h2 : collection_name ∉ st.collections
    · simp [KnowledgeBase.add_document, h1, h2] at hsucc
    · by_cases h3 : content.isEmpty = true
      · simp [KnowledgeBase.add_document, h1, h2, h3] at hsucc
      · by_cases hp : chunking_strategy = "paragraphs"
        · simp only [KnowledgeBase.add_document, h1, h2, h3, hp] at hsucc
          simp at hsucc
          by_cases hemp : (DocumentChunker.chunk_by_paragraphs content 100).isEmpty = true
          · simp [hemp] at hsucc
          · simp [hemp] at hsucc
            obtain ⟨hst2, hd⟩ := hsucc
            subst hst2
            subst hd
            exact ⟨mkDocId_fresh st.documents hinv collection_name ts, rfl,
              docIdsFromAdds_append st.documents hinv collection_name ts⟩
        · by_cases hs : chunking_strategy = "sentences"
          · rcases hsen : DocumentChunker.chunk_by_sentences content 5 1 with u | chunks
            · simp [KnowledgeBase.add_document, h1, h2, h3, hp, hs, hsen] at hsucc
            · simp [KnowledgeBase.add_document, h1, h2, h3, hp, hs, hsen] at hsucc
              by_cases hemp : chunks.isEmpty = true
              · simp [hemp] at hsucc
              · simp [hemp] at hsucc
                obtain ⟨hst2, hd⟩ := hsucc
                subst hst2
                subst hd
                exact ⟨mkDocId_fresh st.documents hinv collection_name ts, rfl,
                  docIdsFromAdds_append st.documents hinv collection_name ts⟩
          · by_cases hz : chunking_strategy = "size"
            · rcases hsiz : DocumentChunker.chunk_by_size content 500 50 with u | chunks
              · simp [KnowledgeBase.add_document, h1, h2, h3, hp, hs, hz, hsiz] at hsucc
              · simp [KnowledgeBase.add_document, h1, h2, h3, hp, hs, hz, hsiz] at hsucc
                by_cases hemp : chunks.isEmpty = true
                · simp [hemp] at hsucc
                · simp [hemp] at hsucc
                  obtain ⟨hst2, hd⟩ := hsucc
                  subst hst2
                  subst hd
                  exact ⟨mkDocId_fresh st.documents hinv collection_name ts, rfl,
                    docIdsFromAdds_append st.documents hinv collection_name ts⟩
            · simp only [KnowledgeBase.add_document, h1, h2, h3, hp, hs, hz] at hsucc
              simp at hsucc
              by_cases hemp : (DocumentChunker.chunk_by_paragraphs content 100).isEmpty = true
              · simp [hemp] at hsucc
              · simp [hemp] at hsucc
                obtain ⟨hst2, hd⟩ := hsucc
                subst hst2
                subst hd
                exact ⟨mkDocId_fresh st.documents hinv collection_name ts, rfl,
                  docIdsFromAdds_append st.documents hinv collection_name ts⟩

/-- Concrete instance of C8: adding a one-paragraph document to a fresh
store with one collection succeeds and mints the id `"doc_docs_0_5"`,
which is new, appended, and keeps the store invariant. -/
theorem add_document_assigns_fresh_id_witness :
    ({ id := "doc_docs_0_5", title := "notes", filepath := "notes.txt",
       collection := "docs", chunks := [⟨"hello world", 2⟩], chunk_count := 1,
       total_words := 2, added_at := "t", indexed := false } : Document).id
      ∉ (⟨["docs"], []⟩ : KBIndex).documents ∧
    (⟨["docs"], ["doc_docs_0_5"]⟩ : KBIndex).documents
      = (⟨["docs"], []⟩ : KBIndex).documents
        ++ [({ id := "doc_docs_0_5", title := "notes", filepath := "notes.txt",
               collection := "docs", chunks := [⟨"hello world", 2⟩],
               chunk_count := 1, total_words := 2, added_at := "t",
               indexed := false } : Document).id] ∧
    DocIdsFromAdds (⟨["docs"], ["doc_docs_0_5"]⟩ : KBIndex).documents :=
  add_document_assigns_fresh_id ⟨["docs"], []⟩ true "notes.txt" "docs" ""
    "paragraphs" "hello world" 5 "t" ⟨["docs"], ["doc_docs_0_5"]⟩
    { id := "doc_docs_0_5", title := "notes", filepath := "notes.txt",
      collection := "docs", chunks := [⟨"hello world", 2⟩], chunk_count := 1,
      total_words := 2, added_at := "t", indexed := false }
    (fun k hk => absurd hk (by simp))
    (by rfl)
